import Mathlib

/-!
Verification of the RAG pipeline of the ai-doc-intelligence repository.

The JavaScript sources under `backend/services/embeddingService.js` (the
`EmbeddingService` and `RAGService` classes), `backend/routes/upload.js`
(the `POST /api/query` route handler) are shallowly embedded below.
JavaScript numbers are modelled as real numbers together with the special
values `NaN` and the two infinities (`JSNum`); machine floats' rounding is
idealised away.  External collaborators (the HuggingFace embedding API, the
Pinecone index, the Groq chat completion API, MongoDB) are passed in as
function parameters returning `Except` values, so that a thrown exception is
an `Except.error` and the data they hand back is arbitrary.
-/

/-- A JavaScript number that may be `NaN` or an infinity.  Finite values are
idealised as real numbers. -/
inductive JSNum where
  | nan : JSNum
  | posInf : JSNum
  | negInf : JSNum
  | val : ℝ → JSNum
deriving Inhabited

/-- JavaScript division of finite numbers: `0/0` is `NaN`, `x/0` for `x ≠ 0`
is a signed infinity, otherwise ordinary real division. -/
noncomputable def jsDiv (x y : ℝ) : JSNum :=
  if y = 0 then (if x = 0 then .nan else if 0 < x then .posInf else .negInf)
  else .val (x / y)

/-- The dot-product loop of `EmbeddingService.cosineSimilarity`
(`dotProduct += vecA[i] * vecB[i]`); `dotProduct v v` is also the
`normA`/`normB` accumulator (sum of squares). -/
def dotProduct (vecA vecB : List ℝ) : ℝ :=
  (List.zipWith (fun x y => x * y) vecA vecB).sum

/-- Source method `EmbeddingService.cosineSimilarity`: throws when the lengths differ,
otherwise returns `dot / (Math.sqrt(normA) * Math.sqrt(normB))` with
JavaScript division semantics. -/
noncomputable def EmbeddingService.cosineSimilarity (vecA vecB : List ℝ) :
    Except String JSNum :=
  if vecA.length ≠ vecB.length then .error "Vectors must have the same length"
  else .ok (jsDiv (dotProduct vecA vecB)
    (Real.sqrt (dotProduct vecA vecA) * Real.sqrt (dotProduct vecB vecB)))

theorem dotProduct_self_nonneg (a : List ℝ) : 0 ≤ dotProduct a a := by
  induction a with
  | nil => simp [dotProduct]
  | cons x xs ih =>
    simp only [dotProduct, List.zipWith_cons_cons, List.sum_cons] at *
    nlinarith [mul_self_nonneg x]

theorem dotProduct_cauchy_schwarz (a b : List ℝ) :
    dotProduct a b ^ 2 ≤ dotProduct a a * dotProduct b b := by
  induction a generalizing b with
  | nil => simp [dotProduct]
  | cons x xs ih =>
    cases b with
    | nil => simp [dotProduct]
    | cons y ys =>
      have hA := dotProduct_self_nonneg xs
      have hB := dotProduct_self_nonneg ys
      have hI := ih ys
      simp only [dotProduct, List.zipWith_cons_cons, List.sum_cons] at *
      rcases eq_or_lt_of_le hB with hB0 | hBpos
      · have hd : (List.zipWith (fun x y => x * y) xs ys).sum = 0 := by
          have h2 : (List.zipWith (fun x y => x * y) xs ys).sum ^ 2 ≤ 0 := by
            calc (List.zipWith (fun x y => x * y) xs ys).sum ^ 2
                ≤ (List.zipWith (fun x y => x * y) xs xs).sum *
                  (List.zipWith (fun x y => x * y) ys ys).sum := hI
              _ = 0 := by rw [← hB0]; ring
          have h3 := sq_nonneg (List.zipWith (fun x y => x * y) xs ys).sum
          have h4 : (List.zipWith (fun x y => x * y) xs ys).sum ^ 2 = 0 :=
            le_antisymm h2 h3
          exact pow_eq_zero_iff (two_ne_zero).symm.symm |>.mp h4
        rw [hd, ← hB0]
        nlinarith [mul_nonneg hA (mul_self_nonneg y)]
      · nlinarith [sq_nonneg (x * (List.zipWith (fun x y => x * y) ys ys).sum -
          (List.zipWith (fun x y => x * y) xs ys).sum * y),
          mul_nonneg (add_nonneg (mul_self_nonneg y) hB)
            (sub_nonneg.mpr hI)]

theorem dotProduct_self_pos (a : List ℝ) (h : ∃ x ∈ a, x ≠ 0) :
    0 < dotProduct a a := by
  induction a with
  | nil => simp at h
  | cons x xs ih =>
    have hxs := dotProduct_self_nonneg xs
    simp only [dotProduct, List.zipWith_cons_cons, List.sum_cons] at *
    rcases h with ⟨z, hz, hz0⟩
    rcases List.mem_cons.mp hz with rfl | hmem
    · nlinarith [mul_self_nonneg z, mul_self_pos.mpr hz0]
    · have := ih ⟨z, hmem, hz0⟩
      nlinarith [mul_self_nonneg x]

theorem dotProduct_eq_zero_left (a b : List ℝ) (h : dotProduct a a = 0) :
    dotProduct a b = 0 := by
  have h1 := dotProduct_cauchy_schwarz a b
  have h2 := dotProduct_self_nonneg b
  have h3 : dotProduct a b ^ 2 ≤ 0 := by
    calc dotProduct a b ^ 2 ≤ dotProduct a a * dotProduct b b := h1
      _ = 0 := by rw [h]; ring
  have h4 := sq_nonneg (dotProduct a b)
  have h5 : dotProduct a b ^ 2 = 0 := le_antisymm h3 h4
  exact pow_eq_zero_iff two_ne_zero |>.mp h5

theorem dotProduct_eq_zero_right (a b : List ℝ) (h : dotProduct b b = 0) :
    dotProduct a b = 0 := by
  have h1 := dotProduct_cauchy_schwarz a b
  have h3 : dotProduct a b ^ 2 ≤ 0 := by
    calc dotProduct a b ^ 2 ≤ dotProduct a a * dotProduct b b := h1
      _ = 0 := by rw [h]; ring
  have h4 := sq_nonneg (dotProduct a b)
  exact pow_eq_zero_iff two_ne_zero |>.mp (le_antisymm h3 h4)

/-- The finite value `cosineSimilarity` produces when neither vector is
degenerate. -/
noncomputable def realCos (a b : List ℝ) : ℝ :=
  dotProduct a b / (Real.sqrt (dotProduct a a) * Real.sqrt (dotProduct b b))

theorem cosineSimilarity_ok_val (a b : List ℝ) (hlen : a.length = b.length)
    (ha : dotProduct a a ≠ 0) (hb : dotProduct b b ≠ 0) :
    EmbeddingService.cosineSimilarity a b = .ok (.val (realCos a b)) := by
  have hA : 0 < dotProduct a a := lt_of_le_of_ne (dotProduct_self_nonneg a) (Ne.symm ha)
  have hB : 0 < dotProduct b b := lt_of_le_of_ne (dotProduct_self_nonneg b) (Ne.symm hb)
  have hden : Real.sqrt (dotProduct a a) * Real.sqrt (dotProduct b b) ≠ 0 := by
    have h1 : 0 < Real.sqrt (dotProduct a a) := Real.sqrt_pos.mpr hA
    have h2 : 0 < Real.sqrt (dotProduct b b) := Real.sqrt_pos.mpr hB
    positivity
  unfold EmbeddingService.cosineSimilarity jsDiv realCos
  rw [if_neg (by simp [hlen]), if_neg hden]

theorem realCos_bounds (a b : List ℝ)
    (ha : dotProduct a a ≠ 0) (hb : dotProduct b b ≠ 0) :
    -1 ≤ realCos a b ∧ realCos a b ≤ 1 := by
  have hA : 0 < dotProduct a a := lt_of_le_of_ne (dotProduct_self_nonneg a) (Ne.symm ha)
  have hB : 0 < dotProduct b b := lt_of_le_of_ne (dotProduct_self_nonneg b) (Ne.symm hb)
  have hAB : 0 < dotProduct a a * dotProduct b b := mul_pos hA hB
  have hsq : realCos a b ^ 2 ≤ 1 := by
    unfold realCos
    rw [div_pow, mul_pow, Real.sq_sqrt hA.le, Real.sq_sqrt hB.le]
    rw [div_le_one hAB]
    exact dotProduct_cauchy_schwarz a b
  constructor
  · nlinarith [sq_nonneg (realCos a b + 1)]
  · nlinarith [sq_nonneg (realCos a b - 1)]

/-- C3 counterexample: on the zero vector (same length on both sides, zero
magnitude) `cosineSimilarity` evaluates `0 / (sqrt 0 * sqrt 0)`, i.e. `0/0`,
and returns `NaN` instead of a value in `[-1, 1]` or a documented explicit
value. -/
theorem cosineSimilarity_zero_vector_nan :
    EmbeddingService.cosineSimilarity [(0 : ℝ)] [(0 : ℝ)] = .ok JSNum.nan := by
  unfold EmbeddingService.cosineSimilarity jsDiv
  rw [if_neg (by simp)]
  have hd : dotProduct [(0 : ℝ)] [(0 : ℝ)] = 0 := by simp [dotProduct]
  rw [hd, Real.sqrt_zero]
  norm_num

/-- C3 (amended): for same-length vectors, if both vectors have non-zero
magnitude then `cosineSimilarity` returns a finite value in `[-1, 1]`, and
`cosineSimilarity v v = 1` for every non-zero `v`; but when either vector
has zero magnitude the function returns `NaN` (it divides `0` by `0`)
rather than a documented explicit value. -/
theorem cosineSimilarity_amended :
    (∀ a b : List ℝ, a.length = b.length →
      (∃ x ∈ a, x ≠ 0) → (∃ y ∈ b, y ≠ 0) →
      ∃ s : ℝ, EmbeddingService.cosineSimilarity a b = .ok (.val s) ∧
        -1 ≤ s ∧ s ≤ 1) ∧
    (∀ v : List ℝ, (∃ x ∈ v, x ≠ 0) →
      EmbeddingService.cosineSimilarity v v = .ok (.val 1)) ∧
    (∀ a b : List ℝ, a.length = b.length →
      (dotProduct a a = 0 ∨ dotProduct b b = 0) →
      EmbeddingService.cosineSimilarity a b = .ok JSNum.nan) := by
  refine ⟨?_, ?_, ?_⟩
  · intro a b hlen ha hb
    have hA := dotProduct_self_pos a ha
    have hB := dotProduct_self_pos b hb
    refine ⟨realCos a b, cosineSimilarity_ok_val a b hlen hA.ne' hB.ne', ?_⟩
    exact realCos_bounds a b hA.ne' hB.ne'
  · intro v hv
    have hV := dotProduct_self_pos v hv
    have h1 : realCos v v = 1 := by
      unfold realCos
      rw [Real.mul_self_sqrt hV.le, div_self hV.ne']
    have := cosineSimilarity_ok_val v v rfl hV.ne' hV.ne'
    rw [this, h1]
  · intro a b hlen h0
    have hdot : dotProduct a b = 0 := by
      rcases h0 with h | h
      · exact dotProduct_eq_zero_left a b h
      · exact dotProduct_eq_zero_right a b h
    have hden : Real.sqrt (dotProduct a a) * Real.sqrt (dotProduct b b) = 0 := by
      rcases h0 with h | h
      · rw [h, Real.sqrt_zero, zero_mul]
      · rw [h, Real.sqrt_zero, mul_zero]
    unfold EmbeddingService.cosineSimilarity jsDiv
    rw [if_neg (by simp [hlen]), hdot, hden]
    norm_num

/-- C3 witness: the amended theorem applied at the concrete vectors
`[3, 4]` and `[4, 3]`. -/
theorem cosineSimilarity_amended_witness :
    (∃ s : ℝ, EmbeddingService.cosineSimilarity [(3 : ℝ), 4] [(4 : ℝ), 3] =
        .ok (.val s) ∧ -1 ≤ s ∧ s ≤ 1) ∧
    EmbeddingService.cosineSimilarity [(3 : ℝ), 4] [(3 : ℝ), 4] = .ok (.val 1) := by
  constructor
  · exact cosineSimilarity_amended.1 [(3 : ℝ), 4] [(4 : ℝ), 3] rfl
      ⟨3, by norm_num⟩ ⟨4, by norm_num⟩
  · exact cosineSimilarity_amended.2.1 [(3 : ℝ), 4] ⟨3, by norm_num⟩

/-!
## TextChunker

`RAGService.splitDocument` delegates to `RecursiveCharacterTextSplitter`
from the `@langchain/textsplitters` npm package with
`chunkSize = 500, chunkOverlap = 100`; that splitter's code is not part of
this repository.
-/

/-- Modelled from the spec: the `RecursiveCharacterTextSplitter` of
`@langchain/textsplitters` (invoked by `RAGService.splitDocument` with
`chunkSize = 500, chunkOverlap = 100`) is not part of this repository's
sources.  The spec describes it as a sliding-window chunker: chunks of at
most `chunkSize` characters, each chunk after the first beginning
`chunkSize - overlap` characters after the previous chunk's start; a
document shorter than `chunkSize` yields exactly one chunk. -/
def chunkText (chunkSize overlap : ℕ) (text : List Char) : List (List Char) :=
  if h : text.length ≤ chunkSize ∨ chunkSize ≤ overlap then [text]
  else
    text.take chunkSize ::
      chunkText chunkSize overlap (text.drop (chunkSize - overlap))
termination_by text.length
decreasing_by
  push_neg at h
  simp only [List.length_drop]
  omega

/-- Source method `RAGService.splitDocument`: chunk the document text with
`chunkSize = 500, chunkOverlap = 100` (see `chunkText`). -/
def RAGService.splitDocument (text : String) : List String :=
  (chunkText 500 100 text.data).map (fun cs => String.mk cs)

theorem chunkText_step (chunkSize overlap : ℕ) (text : List Char)
    (h : chunkSize < text.length) (h2 : overlap < chunkSize) :
    chunkText chunkSize overlap text =
      text.take chunkSize ::
        chunkText chunkSize overlap (text.drop (chunkSize - overlap)) := by
  rw [chunkText]
  rw [dif_neg (by omega)]

theorem chunkText_last (chunkSize overlap : ℕ) (text : List Char)
    (h : text.length ≤ chunkSize) :
    chunkText chunkSize overlap text = [text] := by
  rw [chunkText]
  rw [dif_pos (Or.inl h)]

/-- C4: on any 1200-character text, `splitDocument` (chunk size 500,
overlap 100) yields exactly 3 chunks covering the character spans
`[0:500]`, `[400:900]`, `[800:1200]`, of lengths 500, 500 and 400: each
chunk after the first starts `500 - 100 = 400` characters after the
previous chunk's start. -/
theorem splitDocument_sliding_window_1200 (text : String)
    (h : text.data.length = 1200) :
    RAGService.splitDocument text =
      [String.mk (text.data.take 500), String.mk ((text.data.drop 400).take 500),
        String.mk (text.data.drop 800)] ∧
    (RAGService.splitDocument text).map String.length = [500, 500, 400] := by
  have e1 : chunkText 500 100 text.data =
      text.data.take 500 :: chunkText 500 100 (text.data.drop 400) := by
    have := chunkText_step 500 100 text.data (by omega) (by omega)
    simpa using this
  have hd1 : (text.data.drop 400).length = 800 := by
    simp [List.length_drop, h]
  have e2 : chunkText 500 100 (text.data.drop 400) =
      (text.data.drop 400).take 500 ::
        chunkText 500 100 ((text.data.drop 400).drop 400) := by
    have := chunkText_step 500 100 (text.data.drop 400) (by omega) (by omega)
    simpa using this
  have e3 : (text.data.drop 400).drop 400 = text.data.drop 800 := by
    rw [List.drop_drop]
  have hd2 : (text.data.drop 800).length = 400 := by
    simp [List.length_drop, h]
  have e4 : chunkText 500 100 (text.data.drop 800) = [text.data.drop 800] :=
    chunkText_last 500 100 _ (by omega)
  have echunks : chunkText 500 100 text.data =
      [text.data.take 500, (text.data.drop 400).take 500, text.data.drop 800] := by
    rw [e1, e2, e3, e4]
  constructor
  · rw [RAGService.splitDocument, echunks]
    rfl
  · rw [RAGService.splitDocument, echunks]
    simp only [List.map_cons, List.map_nil]
    have l1 : (String.mk (text.data.take 500)).length = 500 := by
      simp [String.length, List.length_take, h]
    have l2 : (String.mk ((text.data.drop 400).take 500)).length = 500 := by
      simp [String.length, List.length_take, List.length_drop, h]
    have l3 : (String.mk (text.data.drop 800)).length = 400 := by
      simp [String.length, List.length_drop, h]
    rw [l1, l2, l3]

/-- C4 witness: the scenario at the concrete input, a 1200-character string
of repeated A. -/
theorem splitDocument_sliding_window_1200_witness :
    RAGService.splitDocument (String.mk (List.replicate 1200 'A')) =
      [String.mk ((List.replicate 1200 'A').take 500),
        String.mk (((List.replicate 1200 'A').drop 400).take 500),
        String.mk ((List.replicate 1200 'A').drop 800)] ∧
    (RAGService.splitDocument (String.mk (List.replicate 1200 'A'))).map
        String.length = [500, 500, 400] :=
  splitDocument_sliding_window_1200 (String.mk (List.replicate 1200 'A'))
    (by show (List.replicate 1200 'A').length = 1200
        simp only [List.length_replicate])

/-!
## RetrievalEngine: `RAGService.queryDocuments`

The Pinecone client is modelled as a function from the query options the
code builds to the list of matches the index returns (or a thrown error);
the HuggingFace embedder as a function from the question to an embedding
(or a thrown error).
-/

/-- JavaScript `String.prototype.trim()`: strip leading and trailing
whitespace. -/
def jsTrim (s : String) : String :=
  String.mk (((s.data.dropWhile Char.isWhitespace).reverse.dropWhile
    Char.isWhitespace).reverse)

/-- Metadata stored on a Pinecone record; any field may be absent on a
match returned by the index. -/
structure QMetadata where
  documentId : Option String
  chunkIndex : Option ℕ
  text : Option String
deriving DecidableEq

/-- A match returned by `index.query`. -/
structure QMatch where
  id : String
  score : ℝ
  metadata : Option QMetadata

/-- The query options object `RAGService.queryDocuments` builds:
`{ vector, topK: Math.max(topK, 10), includeMetadata: true, filter? }`. -/
structure QueryOptions where
  vector : List ℝ
  topK : ℕ
  includeMetadata : Bool
  filter : Option String

/-- An element of the list `queryDocuments` returns:
`{ id, score, text: metadata.text, metadata }`. -/
structure QueryResult where
  id : String
  score : ℝ
  text : String
  metadata : QMetadata

/-- The per-match step of
`results.matches.filter(m => m.metadata && m.metadata.text).map(...)`:
keeps a match only when `metadata` and `metadata.text` are present. -/
def extractMatch (m : QMatch) : Option QueryResult :=
  match m.metadata with
  | some md =>
    match md.text with
    | some t => some ⟨m.id, m.score, t, md⟩
    | none => none
  | none => none

/-- Source method `RAGService.queryDocuments(question, documentId, topK)`. -/
def RAGService.queryDocuments (embed : String → Except String (List ℝ))
    (index : QueryOptions → Except String (List QMatch))
    (question : String) (documentId : Option String) (topK : ℕ) :
    Except String (List QueryResult) :=
  if jsTrim question = "" then .ok []
  else
    match embed question with
    | .error e => .error e
    | .ok queryEmbedding =>
      match index ⟨queryEmbedding, max topK 10, true, documentId⟩ with
      | .error e => .error e
      | .ok ms =>
        if ms.isEmpty then .ok []
        else .ok ((ms.filterMap extractMatch).take topK)

/-- C2 counterexample: a whitespace-only question makes `queryDocuments`
return a normal empty result (`.ok []`), not a `QueryError`, even when
every external call would fail — so nothing external is consulted, but the
caller cannot distinguish this from a legitimate empty retrieval. -/
theorem queryDocuments_whitespace_ok_counterexample :
    RAGService.queryDocuments (fun _ => .error "embedding API down")
      (fun _ => .error "pinecone down") "   " none 3 = .ok [] := by
  rw [RAGService.queryDocuments, if_pos (by decide)]

/-- C2 (amended): `queryDocuments` called with an empty or whitespace-only
question returns a normal empty result `.ok []` before any external call
(the result does not depend on the embedder or the index); it does not fail
with an error. -/
theorem queryDocuments_whitespace_returns_empty
    (embed : String → Except String (List ℝ))
    (index : QueryOptions → Except String (List QMatch))
    (question : String) (documentId : Option String) (topK : ℕ)
    (h : jsTrim question = "") :
    RAGService.queryDocuments embed index question documentId topK = .ok [] := by
  rw [RAGService.queryDocuments, if_pos h]

/-- C2 witness: the amended theorem at a concrete whitespace question with
concrete (always-failing) external services. -/
theorem queryDocuments_whitespace_returns_empty_witness :
    RAGService.queryDocuments (fun _ => .error "down") (fun _ => .error "down")
      " \t " none 5 = .ok [] :=
  queryDocuments_whitespace_returns_empty _ _ " \t " none 5 (by decide)

theorem extractMatch_score (m : QMatch) (r : QueryResult)
    (h : extractMatch m = some r) : r.score = m.score := by
  obtain ⟨mid, mscore, mmd⟩ := m
  rcases mmd with _ | md
  · simp [extractMatch] at h
  · rcases hmt : md.text with _ | t
    · simp [extractMatch, hmt] at h
    · simp only [extractMatch, hmt] at h
      cases h
      rfl

/-- C5: for a non-empty question, `queryDocuments` asks the vector index
for `max(topK, 10)` candidates (its result is fully determined by the
index's answer to that one request), drops every match without
`metadata.text`, and returns the first `topK` of the remaining matches in
the order the index returned them — so the result has length at most
`topK`, and is in descending score order whenever the index's matches
were. -/
theorem queryDocuments_filters_and_truncates
    (embed : String → Except String (List ℝ))
    (index : QueryOptions → Except String (List QMatch))
    (question : String) (documentId : Option String) (topK : ℕ)
    (qe : List ℝ) (ms : List QMatch)
    (hq : jsTrim question ≠ "")
    (he : embed question = .ok qe)
    (hi : index ⟨qe, max topK 10, true, documentId⟩ = .ok ms) :
    ∃ l, RAGService.queryDocuments embed index question documentId topK = .ok l ∧
      l = (ms.filterMap extractMatch).take topK ∧
      l.length ≤ topK ∧
      (∀ index2 : QueryOptions → Except String (List QMatch),
        index2 ⟨qe, max topK 10, true, documentId⟩ = .ok ms →
          RAGService.queryDocuments embed index2 question documentId topK = .ok l) ∧
      (ms.Pairwise (fun a b => b.score ≤ a.score) →
        l.Pairwise (fun a b => b.score ≤ a.score)) := by
  have heval : ∀ index2 : QueryOptions → Except String (List QMatch),
      index2 ⟨qe, max topK 10, true, documentId⟩ = .ok ms →
      RAGService.queryDocuments embed index2 question documentId topK =
        .ok ((ms.filterMap extractMatch).take topK) := by
    intro index2 hi2
    unfold RAGService.queryDocuments
    rw [if_neg hq, he]
    simp only [hi2]
    by_cases hms : ms.isEmpty
    · have hnil : ms = [] := by
        cases ms with
        | nil => rfl
        | cons a l => simp [List.isEmpty] at hms
      subst hnil
      simp
    · simp only [hms, Bool.false_eq_true, if_false]
  refine ⟨(ms.filterMap extractMatch).take topK, heval index hi, rfl, ?_, heval, ?_⟩
  · exact List.length_take_le topK _
  · intro hp
    refine List.Pairwise.sublist (List.take_sublist _ _) ?_
    refine List.Pairwise.filterMap extractMatch ?_ hp
    intro a a' hle b hb b' hb'
    have hb2 : extractMatch a = some b := hb
    have hb'2 : extractMatch a' = some b' := hb'
    rw [extractMatch_score a b hb2, extractMatch_score a' b' hb'2]
    exact hle

/-- C5 witness: the theorem at a concrete question, embedder and index
(two matches, one without metadata, `topK = 1`). -/
theorem queryDocuments_filters_and_truncates_witness :
    ∃ l, RAGService.queryDocuments (fun _ => .ok [(1 : ℝ)])
        (fun _ => .ok [⟨"m1", 2, some ⟨some "d", some 0, some "t1"⟩⟩,
          ⟨"m2", 1, none⟩]) "hi" none 1 = .ok l ∧
      l = (([⟨"m1", 2, some ⟨some "d", some 0, some "t1"⟩⟩,
          ⟨"m2", 1, none⟩] : List QMatch).filterMap extractMatch).take 1 ∧
      l.length ≤ 1 ∧
      (∀ index2 : QueryOptions → Except String (List QMatch),
        index2 ⟨[(1 : ℝ)], max 1 10, true, none⟩ =
            .ok [⟨"m1", 2, some ⟨some "d", some 0, some "t1"⟩⟩, ⟨"m2", 1, none⟩] →
          RAGService.queryDocuments (fun _ => .ok [(1 : ℝ)]) index2 "hi" none 1 =
            .ok l) ∧
      (([⟨"m1", 2, some ⟨some "d", some 0, some "t1"⟩⟩,
          ⟨"m2", 1, none⟩] : List QMatch).Pairwise
          (fun a b => b.score ≤ a.score) →
        l.Pairwise (fun a b => b.score ≤ a.score)) :=
  queryDocuments_filters_and_truncates _ _ "hi" none 1 [(1 : ℝ)] _
    (by decide) rfl rfl

/-!
## `RAGService.deleteDocument`

The Pinecone `deleteMany` call is modelled as a function taking the ids to
delete and the current index contents, returning the remaining contents (or
a thrown error).
-/

/-- Source method `RAGService.deleteDocument(vectorIds)`: a missing (`null`/`undefined`)
or empty id list is a silent no-op; otherwise `index.deleteMany(vectorIds)`
runs against the index. -/
def RAGService.deleteDocument
    (deleteMany : List String → List String → Except String (List String))
    (vectorIds : Option (List String)) (indexIds : List String) :
    Except String Unit × List String :=
  match vectorIds with
  | none => (.ok (), indexIds)
  | some ids =>
    if ids.isEmpty then (.ok (), indexIds)
    else
      match deleteMany ids indexIds with
      | .ok remaining => (.ok (), remaining)
      | .error e => (.error e, indexIds)

/-- C10: `deleteDocument` with a missing or empty id list returns normally,
leaves the index unchanged, and issues no delete call (the result does not
depend on the delete operation at all). -/
theorem deleteDocument_empty_noop
    (deleteMany1 deleteMany2 : List String → List String → Except String (List String))
    (vectorIds : Option (List String)) (indexIds : List String)
    (h : vectorIds = none ∨ vectorIds = some []) :
    RAGService.deleteDocument deleteMany1 vectorIds indexIds = (.ok (), indexIds) ∧
    RAGService.deleteDocument deleteMany1 vectorIds indexIds =
      RAGService.deleteDocument deleteMany2 vectorIds indexIds := by
  rcases h with rfl | rfl <;> simp [RAGService.deleteDocument]

/-- C10 witness: the theorem at an empty id list and a destructive concrete
`deleteMany`; the populated index survives untouched. -/
theorem deleteDocument_empty_noop_witness :
    RAGService.deleteDocument (fun _ _ => .ok []) (some []) ["a", "b"] =
      (.ok (), ["a", "b"]) ∧
    RAGService.deleteDocument (fun _ _ => .ok []) (some []) ["a", "b"] =
      RAGService.deleteDocument (fun _ _ => .error "down") (some []) ["a", "b"] :=
  deleteDocument_empty_noop (fun _ _ => .ok []) (fun _ _ => .error "down")
    (some []) ["a", "b"] (Or.inr rfl)

/-!
## DocumentIndexer: `RAGService.indexDocument`

`describeIndexStats` is modelled as an `Except` carrying the index's
configured dimension (`stats.dimension` may itself be absent, in which case
the code defaults it to 384).  The Pinecone upsert itself is modelled as
succeeding; the second component of `indexDocument`'s result is the list of
records committed to the index during the run.
-/

/-- Metadata stored with each upserted vector:
`{ documentId, chunkIndex, text }`. -/
structure PMetadata where
  documentId : String
  chunkIndex : ℕ
  text : String

/-- A Pinecone record as built by `indexDocument`:
`{ id: `{documentId}_chunk_{i}`, values, metadata }`. -/
structure PRecord where
  id : String
  values : List ℝ
  metadata : PMetadata

/-- Source constant `BATCH_SIZE = 50`. -/
def BATCH_SIZE : ℕ := 50

/-- The batches `_batchUpsert` slices with
`vectors.slice(i, i + BATCH_SIZE)`. -/
def toBatches {α : Type} (l : List α) : List (List α) :=
  if h : l.isEmpty then [] else l.take BATCH_SIZE :: toBatches (l.drop BATCH_SIZE)
termination_by l.length
decreasing_by
  have hne : l ≠ [] := by
    cases l with
    | nil => simp at h
    | cons a t => exact List.cons_ne_nil a t
  have hpos : 0 < l.length := List.length_pos.mpr hne
  simp only [List.length_drop, BATCH_SIZE]
  omega

/-- Source method `RAGService._batchUpsert`: all batches are upserted sequentially; the
records committed to the index are the concatenation of the batches. -/
def RAGService.batchUpsert (vectors : List PRecord) : List PRecord :=
  (toBatches vectors).flatten

/-- The chunk-embedding loop of `indexDocument`: empty (whitespace-only)
chunks are skipped with a warning, an embedder failure or an empty returned
embedding aborts with an error, and each surviving chunk `i` becomes a
record with id `{documentId}_chunk_{i}`. -/
def embedChunks (embed : String → Except String (List ℝ)) (documentId : String) :
    List String → ℕ → Except String (List PRecord)
  | [], _ => .ok []
  | chunk :: rest, i =>
    if jsTrim chunk = "" then embedChunks embed documentId rest (i + 1)
    else
      match embed chunk with
      | .error e => .error e
      | .ok embedding =>
        if embedding.isEmpty then
          .error ("Invalid embedding for chunk " ++ toString i)
        else
          match embedChunks embed documentId rest (i + 1) with
          | .error e => .error e
          | .ok recs =>
            .ok (⟨documentId ++ "_chunk_" ++ toString i, embedding,
              ⟨documentId, i, chunk⟩⟩ :: recs)

/-- The dimension validation of `indexDocument` in isolation: get the index
stats, default a missing dimension to 384, and fail on a mismatch with the
first vector's dimensionality. -/
def dimensionCheck (stats : Except String (Option ℕ)) (actualDim : ℕ) :
    Except String Unit :=
  match stats with
  | .error e => .error e
  | .ok dim =>
    if actualDim ≠ dim.getD 384 then
      .error ("Dimension mismatch: expected " ++ toString (dim.getD 384) ++
        ", got " ++ toString actualDim)
    else .ok ()

/-- Source method `RAGService.indexDocument(documentId, text)`.  The pair holds the
function's own result and the records committed to the index in this run.
The dimension validation (`dimensionCheck`) sits inside a `try` whose
`catch` only logs a warning, so in the code as written its outcome —
including its own `Dimension mismatch` throw — never affects control flow;
the post-upsert verification query is likewise warn-only and is omitted. -/
def RAGService.indexDocument (embed : String → Except String (List ℝ))
    (stats : Except String (Option ℕ)) (documentId text : String) :
    Except String (List String) × List PRecord :=
  if jsTrim text = "" then (.error "Empty document text", [])
  else if (RAGService.splitDocument text).isEmpty then
    (.error "No chunks created", [])
  else
    match embedChunks embed documentId (RAGService.splitDocument text) 0 with
    | .error e => (.error e, [])
    | .ok vectors =>
      if vectors.isEmpty then (.error "No vectors created", [])
      else
        match dimensionCheck stats
            ((vectors.headD ⟨"", [], ⟨"", 0, ""⟩⟩).values.length) with
        | _ => (.ok (vectors.map (fun v => v.id)), RAGService.batchUpsert vectors)

theorem embedChunks_error_of_mem (embed : String → Except String (List ℝ))
    (documentId : String) (e : String) (c : String)
    (hct : jsTrim c ≠ "") (hce : embed c = .error e) :
    ∀ (chunks : List String) (i : ℕ), c ∈ chunks →
      ∃ e2, embedChunks embed documentId chunks i = .error e2 := by
  intro chunks
  induction chunks with
  | nil => intro i hc; simp at hc
  | cons a rest ih =>
    intro i hc
    by_cases ha : jsTrim a = ""
    · have hca : c ≠ a := fun hh => hct (hh ▸ ha)
      have hcr : c ∈ rest := by
        rcases List.mem_cons.mp hc with rfl | hr
        · exact absurd rfl hca
        · exact hr
      obtain ⟨e2, he2⟩ := ih (i + 1) hcr
      refine ⟨e2, ?_⟩
      rw [embedChunks, if_pos ha, he2]
    · cases hemb : embed a with
      | error e3 =>
        refine ⟨e3, ?_⟩
        rw [embedChunks, if_neg ha, hemb]
      | ok v =>
        have hca : c ≠ a := fun hh => by
          rw [hh, hemb] at hce
          exact absurd hce (by simp)
        have hcr : c ∈ rest := by
          rcases List.mem_cons.mp hc with rfl | hr
          · exact absurd rfl hca
          · exact hr
        obtain ⟨e2, he2⟩ := ih (i + 1) hcr
        by_cases hv : v.isEmpty
        · refine ⟨"Invalid embedding for chunk " ++ toString i, ?_⟩
          rw [embedChunks, if_neg ha, hemb]
          simp only [hv, if_true]
        · refine ⟨e2, ?_⟩
          rw [embedChunks, if_neg ha, hemb]
          simp only [hv, Bool.false_eq_true, if_false, he2]

/-- C8: if the embedder fails on any non-empty chunk of the document, the
whole `indexDocument` run fails with an error and commits no records to the
index (all chunk embeddings happen before the first upsert batch), so the
caller can retry the full document. -/
theorem indexDocument_embed_failure_aborts
    (embed : String → Except String (List ℝ))
    (stats : Except String (Option ℕ)) (documentId text : String)
    (c e : String)
    (hc : c ∈ RAGService.splitDocument text)
    (hct : jsTrim c ≠ "")
    (hce : embed c = .error e) :
    (∃ e2, (RAGService.indexDocument embed stats documentId text).1 = .error e2) ∧
    (RAGService.indexDocument embed stats documentId text).2 = [] := by
  unfold RAGService.indexDocument
  by_cases h1 : jsTrim text = ""
  · rw [if_pos h1]
    exact ⟨⟨"Empty document text", rfl⟩, rfl⟩
  · rw [if_neg h1]
    by_cases h2 : (RAGService.splitDocument text).isEmpty
    · have : RAGService.splitDocument text = [] := by
        cases hsd : RAGService.splitDocument text with
        | nil => rfl
        | cons x xs => rw [hsd] at h2; simp at h2
      rw [this] at hc
      simp at hc
    · rw [if_neg h2]
      obtain ⟨e2, he2⟩ := embedChunks_error_of_mem embed documentId e c hct hce
        (RAGService.splitDocument text) 0 hc
      rw [he2]
      exact ⟨⟨e2, rfl⟩, rfl⟩

theorem splitDocument_hello : RAGService.splitDocument "hello world" = ["hello world"] := by
  unfold RAGService.splitDocument
  rw [chunkText_last 500 100 _ (by decide)]
  rfl

/-- C8 witness: the theorem at a concrete document whose (single) chunk the
concrete embedder rejects. -/
theorem indexDocument_embed_failure_aborts_witness :
    (∃ e2, (RAGService.indexDocument (fun _ => .error "HF 500") (.ok (some 384))
      "doc1" "hello world").1 = .error e2) ∧
    (RAGService.indexDocument (fun _ => .error "HF 500") (.ok (some 384))
      "doc1" "hello world").2 = [] :=
  indexDocument_embed_failure_aborts (fun _ => .error "HF 500") (.ok (some 384))
    "doc1" "hello world" "hello world" "HF 500"
    (by rw [splitDocument_hello]; exact List.mem_singleton.mpr rfl)
    (by decide) rfl

theorem toBatches_flatten {α : Type} (l : List α) : (toBatches l).flatten = l := by
  rw [toBatches]
  by_cases h : l.isEmpty
  · rw [dif_pos h]
    cases l with
    | nil => rfl
    | cons a t => simp at h
  · rw [dif_neg h, List.flatten_cons, toBatches_flatten (l.drop BATCH_SIZE)]
    exact List.take_append_drop _ l
termination_by l.length
decreasing_by
  have hne : l ≠ [] := by
    cases l with
    | nil => simp at h
    | cons a t => exact List.cons_ne_nil a t
  have hpos : 0 < l.length := List.length_pos.mpr hne
  simp only [List.length_drop, BATCH_SIZE]
  omega

/-- C1 (code bug evidence): with the index configured at dimension 384 and
an embedder that returns 2-dimensional vectors, the dimension validation
itself fails (`dimensionCheck` errors with `Dimension mismatch`), yet
`indexDocument` still returns success and commits the mismatched record to
the index, because the surrounding `try`/`catch` demotes the mismatch throw
to a warning. -/
theorem indexDocument_dimension_mismatch_not_fatal :
    dimensionCheck (.ok (some 384)) 2 =
      .error "Dimension mismatch: expected 384, got 2" ∧
    RAGService.indexDocument (fun _ => .ok [(1 : ℝ), 2]) (.ok (some 384))
        "doc1" "hello world" =
      (.ok ["doc1_chunk_0"],
        [⟨"doc1_chunk_0", [(1 : ℝ), 2], ⟨"doc1", 0, "hello world"⟩⟩]) := by
  constructor
  · rfl
  · have hemb : embedChunks (fun _ => .ok [(1 : ℝ), 2]) "doc1" ["hello world"] 0 =
        .ok [⟨"doc1_chunk_0", [(1 : ℝ), 2], ⟨"doc1", 0, "hello world"⟩⟩] := by
      rw [embedChunks, if_neg (by decide)]
      simp only [List.isEmpty_cons, Bool.false_eq_true, if_false]
      rw [embedChunks]
      rfl
    unfold RAGService.indexDocument
    rw [if_neg (by decide), splitDocument_hello]
    simp only [List.isEmpty_cons, Bool.false_eq_true, if_false, hemb]
    rw [RAGService.batchUpsert, toBatches_flatten]
    rfl

/-!
## The `POST /api/query` route handler (backend/routes/upload.js)

The MongoDB `Document.find` result is the `docs` parameter; the
`ragService.queryDocuments` call is the `retrieval` parameter (its thrown
errors are caught by the route); the Groq chat completion is external and
outside the claims, so the response is modelled up to the assembled
context, the retrieval method flag and the source previews.
-/

/-- A stored document as selected by the route
(`originalName textContent vectorIds`). -/
structure QDoc where
  originalName : String
  textContent : String
deriving DecidableEq

/-- One element of the `sources` array of the response. -/
structure SourcePreview where
  text : String
  score : ℝ
  documentName : Option String

/-- The parts of the route's JSON response the claims are about. -/
structure QueryResponse where
  success : Bool
  context : String
  method : String
  sources : List SourcePreview

/-- JavaScript `s.substring(0, n)`. -/
def jsSubstring (s : String) (n : ℕ) : String :=
  String.mk (s.data.take n)

theorem jsSubstring_length_le (s : String) (n : ℕ) :
    (jsSubstring s n).length ≤ n := by
  have : (jsSubstring s n).length = (s.data.take n).length := rfl
  rw [this, List.length_take]
  exact min_le_left _ _

/-- The `Try RAG search first (vector-based)` block of the route: produces
`(usedRAG, context, sources)`.  A throw from `queryDocuments` is caught and
leaves all three at their initial values; so does an empty chunk list.  A
non-empty chunk list is cut to `topK`, joined with an explicit delimiter,
and hard-truncated at the `chunkSize * topK` budget. -/
def ragAttempt (docs : List QDoc) (retrieval : Except String (List QueryResult))
    (specific : Bool) (topK chunkSize : ℕ) :
    Bool × String × List SourcePreview :=
  if specific then
    match retrieval with
    | .ok chunks =>
      if chunks.isEmpty then (false, "", [])
      else
        let topChunks := chunks.take topK
        let context := String.intercalate "\n\n---\n\n"
          (topChunks.map (fun c => c.text))
        let maxContextLength := chunkSize * topK
        (true,
          if maxContextLength < context.length then
            jsSubstring context maxContextLength
          else context,
          topChunks.map (fun c =>
            (⟨jsSubstring c.text 300 ++ "...", c.score,
              (docs.head?).map (fun d => d.originalName)⟩ : SourcePreview)))
    | .error _ => (false, "", [])
  else (false, "", [])

/-- The `Fallback: Use direct text content` block: the first
`chunkSize * topK` characters of the stored text (single document), or of
the name-tagged concatenation of all documents with text. -/
def directContext (docsWithText : List QDoc) (specific : Bool)
    (topK chunkSize : ℕ) : String :=
  if specific then
    jsSubstring (docsWithText.headD ⟨"", ""⟩).textContent (chunkSize * topK)
  else
    jsSubstring (String.intercalate "\n\n---\n\n"
      (docsWithText.map (fun d => "[" ++ d.originalName ++ "]\n" ++ d.textContent)))
      (chunkSize * topK)

/-- The `POST /api/query` handler from validation up to the call of the
answer generator (which is external and assumed to answer). -/
def queryRoute (docs : List QDoc) (retrieval : Except String (List QueryResult))
    (question : String) (documentId : Option String) (topK chunkSize : ℕ) :
    QueryResponse :=
  if jsTrim question = "" then ⟨false, "", "", []⟩
  else if docs.isEmpty then ⟨false, "", "", []⟩
  else if (docs.filter (fun d => jsTrim d.textContent != "")).isEmpty then
    ⟨false, "", "", []⟩
  else
    let docsWithText := docs.filter (fun d => jsTrim d.textContent != "")
    let specific : Bool := match documentId with
      | some d => d != "all"
      | none => false
    let rag := ragAttempt docs retrieval specific topK chunkSize
    let context :=
      if !rag.1 || rag.2.1 == "" then
        directContext docsWithText specific topK chunkSize
      else rag.2.1
    ⟨true, context, if rag.1 then "vector" else "direct", rag.2.2⟩

theorem ragAttempt_context_le (docs : List QDoc)
    (retrieval : Except String (List QueryResult)) (specific : Bool)
    (topK chunkSize : ℕ) :
    (ragAttempt docs retrieval specific topK chunkSize).2.1.length ≤
      chunkSize * topK := by
  unfold ragAttempt
  by_cases hs : specific
  · simp only [hs, if_true]
    cases retrieval with
    | error e => simp
    | ok chunks =>
      by_cases hc : chunks.isEmpty
      · simp [hc]
      · simp only [hc, Bool.false_eq_true, if_false]
        by_cases hlen : chunkSize * topK <
            (String.intercalate "\n\n---\n\n"
              ((chunks.take topK).map (fun c => c.text))).length
        · simp only [hlen, if_true]
          exact jsSubstring_length_le _ _
        · simp only [hlen, if_false]
          omega
  · simp [hs]

/-- C7: the context string the route hands to answer generation never
exceeds the `chunkSize * topK` character budget — on the vector-retrieval
path (hard truncation at the boundary) and on the direct-text fallback
path, for every retrieval outcome. -/
theorem queryRoute_context_budget (docs : List QDoc)
    (retrieval : Except String (List QueryResult)) (question : String)
    (documentId : Option String) (topK chunkSize : ℕ) :
    (queryRoute docs retrieval question documentId topK chunkSize).context.length ≤
      chunkSize * topK := by
  unfold queryRoute
  by_cases h1 : jsTrim question = ""
  · simp [h1]
  · rw [if_neg h1]
    by_cases h2 : docs.isEmpty
    · simp [h2]
    · rw [if_neg h2]
      by_cases h3 : (docs.filter (fun d => jsTrim d.textContent != "")).isEmpty
      · simp [h3]
      · rw [if_neg h3]
        simp only
        set spec : Bool := (match documentId with
          | some d => d != "all"
          | none => false) with hspec
        by_cases h4 : (!(ragAttempt docs retrieval spec topK chunkSize).1 ||
            (ragAttempt docs retrieval spec topK chunkSize).2.1 == "") = true
        · rw [if_pos h4]
          unfold directContext
          by_cases h5 : spec = true
          · rw [if_pos h5]
            exact jsSubstring_length_le _ _
          · rw [if_neg h5]
            exact jsSubstring_length_le _ _
        · rw [if_neg h4]
          exact ragAttempt_context_le docs retrieval spec topK chunkSize

/-- C6: when vector retrieval for a specific document returns no chunks or
throws, the route still answers: it substitutes the first
`chunkSize * topK` characters of the stored document's text as context,
reports `method = "direct"` instead of `"vector"`, and returns a non-error
(success) response. -/
theorem queryRoute_empty_or_throw_falls_back_direct
    (docs : List QDoc) (retrieval : Except String (List QueryResult))
    (question : String) (d : String) (topK chunkSize : ℕ)
    (hq : jsTrim question ≠ "")
    (hall : d ≠ "all")
    (hwt : docs.filter (fun dd => jsTrim dd.textContent != "") ≠ [])
    (hr : retrieval = .ok [] ∨ ∃ e, retrieval = .error e) :
    queryRoute docs retrieval question (some d) topK chunkSize =
      ⟨true,
        jsSubstring ((docs.filter (fun dd => jsTrim dd.textContent != "")).headD
          ⟨"", ""⟩).textContent (chunkSize * topK),
        "direct", []⟩ := by
  have hde : ¬(docs.isEmpty = true) := by
    cases docs with
    | nil => exact absurd rfl hwt
    | cons a t => simp
  have hfe : ¬((docs.filter (fun dd => jsTrim dd.textContent != "")).isEmpty = true) :=
    fun hc => hwt (List.isEmpty_iff.mp hc)
  have hspec : (d != "all") = true := bne_iff_ne.mpr hall
  have hrag : ragAttempt docs retrieval true topK chunkSize = (false, "", []) := by
    unfold ragAttempt
    rcases hr with rfl | ⟨e, rfl⟩
    · simp
    · simp
  unfold queryRoute
  rw [if_neg hq, if_neg hde, if_neg hfe]
  simp only [hspec, hrag]
  simp [directContext]

/-- C6 witness: the theorem at a concrete stored document with an empty
vector retrieval. -/
theorem queryRoute_empty_or_throw_falls_back_direct_witness :
    queryRoute [⟨"a.pdf", "The quick brown fox"⟩] (.ok []) "what" (some "123")
        3 5 =
      ⟨true,
        jsSubstring ((([⟨"a.pdf", "The quick brown fox"⟩] : List QDoc).filter
          (fun dd => jsTrim dd.textContent != "")).headD
          ⟨"", ""⟩).textContent (5 * 3),
        "direct", []⟩ :=
  queryRoute_empty_or_throw_falls_back_direct
    [⟨"a.pdf", "The quick brown fox"⟩] (.ok []) "what" "123" 3 5
    (by decide) (by decide) (by decide) (Or.inl rfl)

/-!
## SimilarityScorer: `EmbeddingService.findSimilar`

`results.sort((a, b) => b.score - a.score)` is a stable sort (ECMAScript
requires `Array.prototype.sort` to be stable) that keeps `a` before `b`
unless the comparator is positive; over an inconsistent comparator the
order is implementation-defined, so the ranking theorems assume finite
(`val`) scores, which the non-degeneracy hypotheses guarantee.
-/

/-- A candidate document passed to `findSimilar`:
`{text, embedding}`. -/
structure SimDoc where
  text : String
  embedding : List ℝ

/-- An element of `findSimilar`'s result: `{text, score}`. -/
structure SimResult where
  text : String
  score : JSNum

/-- JavaScript subtraction on `JSNum` (used by the sort comparator
`(a, b) => b.score - a.score`). -/
def jsSub : JSNum → JSNum → JSNum
  | .nan, _ => .nan
  | _, .nan => .nan
  | .posInf, .posInf => .nan
  | .posInf, _ => .posInf
  | .negInf, .negInf => .nan
  | .negInf, _ => .negInf
  | .val _, .posInf => .negInf
  | .val _, .negInf => .posInf
  | .val x, .val y => .val (x - y)

/-- JavaScript `n > 0` (false for `NaN`). -/
def jsGtZero : JSNum → Prop
  | .val x => 0 < x
  | .posInf => True
  | .negInf => False
  | .nan => False

noncomputable instance (n : JSNum) : Decidable (jsGtZero n) :=
  match n with
  | .val x => inferInstanceAs (Decidable (0 < x))
  | .posInf => .isTrue trivial
  | .negInf => .isFalse (fun h => h)
  | .nan => .isFalse (fun h => h)

/-- A stable sort keeps `a` (the earlier element) before `b` exactly when
the comparator `b.score - a.score` is not positive (`NaN` counts as
zero). -/
def jsSortKeep (a b : SimResult) : Prop :=
  ¬ jsGtZero (jsSub b.score a.score)

noncomputable instance (a b : SimResult) : Decidable (jsSortKeep a b) :=
  inferInstanceAs (Decidable (¬ _))

/-- Insert an element (earlier in the input than everything in the sorted
list) into a sorted list, stably. -/
noncomputable def insertJS (a : SimResult) : List SimResult → List SimResult
  | [] => [a]
  | b :: l => if jsSortKeep a b then a :: b :: l else b :: insertJS a l

/-- The stable descending-score sort
`results.sort((a, b) => b.score - a.score)`. -/
noncomputable def jsSortDesc : List SimResult → List SimResult
  | [] => []
  | a :: l => insertJS a (jsSortDesc l)

/-- The per-document scoring step of `findSimilar`
(`score: this.cosineSimilarity(queryEmbedding, doc.embedding)`); a
similarity error (length mismatch) aborts. -/
noncomputable def scoreAll (qe : List ℝ) : List SimDoc → Except String (List SimResult)
  | [] => .ok []
  | doc :: rest =>
    match EmbeddingService.cosineSimilarity qe doc.embedding with
    | .error e => .error e
    | .ok s =>
      match scoreAll qe rest with
      | .error e => .error e
      | .ok rs => .ok (⟨doc.text, s⟩ :: rs)

/-- Source method `EmbeddingService.embedText`: rejects empty text, wraps any failure in
`Failed to generate embedding:`. -/
def embedText (embed : String → Except String (List ℝ)) (text : String) :
    Except String (List ℝ) :=
  if jsTrim text = "" then
    .error "Failed to generate embedding: Text cannot be empty"
  else
    match embed text with
    | .ok e => .ok e
    | .error m => .error ("Failed to generate embedding: " ++ m)

/-- Source method `EmbeddingService.findSimilar(query, documents, topK)`: embed the query
once, score every candidate, sort descending by score (stable), return the
first `topK`. -/
noncomputable def EmbeddingService.findSimilar
    (embed : String → Except String (List ℝ)) (query : String)
    (documents : List SimDoc) (topK : ℕ) : Except String (List SimResult) :=
  match embedText embed query with
  | .error m => .error ("Failed to find similar documents: " ++ m)
  | .ok queryEmbedding =>
    match scoreAll queryEmbedding documents with
    | .error m => .error ("Failed to find similar documents: " ++ m)
    | .ok results => .ok ((jsSortDesc results).take topK)

/-- The specification ranking order on indexed scored candidates:
strictly greater score first, ties broken by original (enumeration)
order. -/
def rlexP (p q : ℕ × String × ℝ) : Prop :=
  q.2.2 < p.2.2 ∨ (p.2.2 = q.2.2 ∧ p.1 ≤ q.1)

noncomputable instance (p q : ℕ × String × ℝ) : Decidable (rlexP p q) :=
  inferInstanceAs (Decidable (_ ∨ _))

noncomputable def insertLex (p : ℕ × String × ℝ) :
    List (ℕ × String × ℝ) → List (ℕ × String × ℝ)
  | [] => [p]
  | q :: l => if rlexP p q then p :: q :: l else q :: insertLex p l

noncomputable def sortLex : List (ℕ × String × ℝ) → List (ℕ × String × ℝ)
  | [] => []
  | p :: l => insertLex p (sortLex l)

/-- Projection from an indexed scored candidate to a result entry. -/
def projSim (q : ℕ × String × ℝ) : SimResult := ⟨q.2.1, JSNum.val q.2.2⟩

/-- Specification model of `findSimilar`'s ranking, following the spec's
words: score every candidate, sort descending by score with ties broken by
original input order (a stable sort, made explicit by sorting the
enumerated list lexicographically on (score descending, index
ascending)). -/
noncomputable def stableRankSpec (scored : List (String × ℝ)) : List SimResult :=
  (sortLex scored.enum).map projSim

theorem jsSortKeep_val_iff (s t : String) (x y : ℝ) :
    jsSortKeep ⟨s, .val x⟩ ⟨t, .val y⟩ ↔ y ≤ x := by
  show ¬ jsGtZero (jsSub (.val y) (.val x)) ↔ y ≤ x
  have h1 : jsSub (.val y) (.val x) = .val (y - x) := rfl
  rw [h1]
  show ¬ (0 < y - x) ↔ y ≤ x
  rw [not_lt, sub_nonpos]

theorem rlexP_le_iff (p q : ℕ × String × ℝ) (h : p.1 ≤ q.1) :
    rlexP p q ↔ q.2.2 ≤ p.2.2 := by
  constructor
  · intro hr
    rcases hr with hlt | ⟨heq, _⟩
    · exact hlt.le
    · exact le_of_eq heq.symm
  · intro hle
    rcases lt_or_eq_of_le hle with hlt | heq
    · exact Or.inl hlt
    · exact Or.inr ⟨heq.symm, h⟩

theorem insertLex_mem (p r : ℕ × String × ℝ) :
    ∀ L : List (ℕ × String × ℝ), r ∈ insertLex p L → r = p ∨ r ∈ L := by
  intro L
  induction L with
  | nil =>
    intro h
    rw [insertLex] at h
    simp at h
    exact Or.inl h
  | cons q L ih =>
    intro h
    rw [insertLex] at h
    by_cases hc : rlexP p q
    · rw [if_pos hc] at h
      rcases List.mem_cons.mp h with rfl | h2
      · exact Or.inl rfl
      · exact Or.inr h2
    · rw [if_neg hc] at h
      rcases List.mem_cons.mp h with rfl | h2
      · exact Or.inr (List.mem_cons_self _ _)
      · rcases ih h2 with h3 | h3
        · exact Or.inl h3
        · exact Or.inr (List.mem_cons_of_mem _ h3)

theorem sortLex_mem (r : ℕ × String × ℝ) :
    ∀ M : List (ℕ × String × ℝ), r ∈ sortLex M → r ∈ M := by
  intro M
  induction M with
  | nil => intro h; rw [sortLex] at h; exact h
  | cons p M ih =>
    intro h
    rw [sortLex] at h
    rcases insertLex_mem p r (sortLex M) h with rfl | h2
    · exact List.mem_cons_self _ _
    · exact List.mem_cons_of_mem _ (ih h2)

theorem mem_enumFrom_le {α : Type} (q : ℕ × α) :
    ∀ (l : List α) (n : ℕ), q ∈ List.enumFrom n l → n ≤ q.1 := by
  intro l
  induction l with
  | nil => intro n h; simp [List.enumFrom] at h
  | cons a l ih =>
    intro n h
    rcases List.mem_cons.mp h with rfl | h2
    · exact le_refl _
    · exact Nat.le_of_succ_le (ih (n + 1) h2)

theorem insertLex_proj (p : ℕ × String × ℝ) :
    ∀ L : List (ℕ × String × ℝ), (∀ q ∈ L, p.1 ≤ q.1) →
      (insertLex p L).map projSim = insertJS (projSim p) (L.map projSim) := by
  intro L
  induction L with
  | nil => intro _; rfl
  | cons q L ih =>
    intro hL
    have hq : p.1 ≤ q.1 := hL q (List.mem_cons_self _ _)
    have hcond : rlexP p q ↔ jsSortKeep (projSim p) (projSim q) := by
      rw [rlexP_le_iff p q hq]
      have : jsSortKeep (projSim p) (projSim q) ↔ q.2.2 ≤ p.2.2 :=
        jsSortKeep_val_iff p.2.1 q.2.1 p.2.2 q.2.2
      rw [this]
    by_cases hc : rlexP p q
    · rw [insertLex, if_pos hc]
      simp only [List.map_cons]
      rw [insertJS, if_pos (hcond.mp hc)]
    · rw [insertLex, if_neg hc]
      simp only [List.map_cons]
      rw [insertJS, if_neg (fun hk => hc (hcond.mpr hk))]
      rw [ih (fun r hr => hL r (List.mem_cons_of_mem _ hr))]

theorem sortLex_proj :
    ∀ (l : List (String × ℝ)) (n : ℕ),
      (sortLex (List.enumFrom n l)).map projSim =
        jsSortDesc (l.map (fun p => (⟨p.1, JSNum.val p.2⟩ : SimResult))) := by
  intro l
  induction l with
  | nil => intro n; rfl
  | cons p l ih =>
    intro n
    have he : List.enumFrom n (p :: l) = (n, p) :: List.enumFrom (n + 1) l := rfl
    rw [he, sortLex]
    have hL : ∀ q ∈ sortLex (List.enumFrom (n + 1) l), (n, p).1 ≤ q.1 := by
      intro q hq
      have h1 := sortLex_mem q _ hq
      have h2 := mem_enumFrom_le q l (n + 1) h1
      exact Nat.le_of_succ_le h2
    rw [insertLex_proj (n, p) _ hL, ih (n + 1)]
    rw [List.map_cons, jsSortDesc]
    rfl

theorem rlexP_total (p q : ℕ × String × ℝ) : rlexP p q ∨ rlexP q p := by
  rcases lt_trichotomy p.2.2 q.2.2 with h | h | h
  · exact Or.inr (Or.inl h)
  · rcases Nat.le_total p.1 q.1 with h2 | h2
    · exact Or.inl (Or.inr ⟨h, h2⟩)
    · exact Or.inr (Or.inr ⟨h.symm, h2⟩)
  · exact Or.inl (Or.inl h)

theorem rlexP_trans (p q r : ℕ × String × ℝ)
    (h1 : rlexP p q) (h2 : rlexP q r) : rlexP p r := by
  rcases h1 with h1 | ⟨h1e, h1i⟩
  · rcases h2 with h2 | ⟨h2e, _⟩
    · exact Or.inl (h2.trans h1)
    · exact Or.inl (h2e ▸ h1)
  · rcases h2 with h2 | ⟨h2e, h2i⟩
    · exact Or.inl (h1e ▸ h2)
    · exact Or.inr ⟨h1e.trans h2e, h1i.trans h2i⟩

theorem insertLex_pairwise (p : ℕ × String × ℝ) :
    ∀ L : List (ℕ × String × ℝ), L.Pairwise rlexP →
      (insertLex p L).Pairwise rlexP := by
  intro L
  induction L with
  | nil => intro _; rw [insertLex]; exact List.pairwise_singleton _ _
  | cons q L ih =>
    intro hp
    rw [insertLex]
    rcases List.pairwise_cons.mp hp with ⟨hq, hL⟩
    by_cases hc : rlexP p q
    · rw [if_pos hc]
      refine List.pairwise_cons.mpr ⟨?_, hp⟩
      intro r hr
      rcases List.mem_cons.mp hr with rfl | hr2
      · exact hc
      · exact rlexP_trans p q r hc (hq r hr2)
    · rw [if_neg hc]
      refine List.pairwise_cons.mpr ⟨?_, ih hL⟩
      intro r hr
      rcases insertLex_mem p r L hr with h1 | hr2
      · rw [h1]
        rcases rlexP_total p q with h | h
        · exact absurd h hc
        · exact h
      · exact hq r hr2

theorem sortLex_pairwise :
    ∀ M : List (ℕ × String × ℝ), (sortLex M).Pairwise rlexP := by
  intro M
  induction M with
  | nil => rw [sortLex]; exact List.Pairwise.nil
  | cons p M ih => rw [sortLex]; exact insertLex_pairwise p _ ih

theorem scoreAll_ok (qe : List ℝ) (hqe : dotProduct qe qe ≠ 0) :
    ∀ documents : List SimDoc,
      (∀ d ∈ documents, d.embedding.length = qe.length ∧
        dotProduct d.embedding d.embedding ≠ 0) →
      scoreAll qe documents =
        .ok (documents.map (fun d =>
          (⟨d.text, JSNum.val (realCos qe d.embedding)⟩ : SimResult))) := by
  intro documents
  induction documents with
  | nil => intro _; rfl
  | cons d rest ih =>
    intro hd
    obtain ⟨hlen, hnz⟩ := hd d (List.mem_cons_self _ _)
    have hcos := cosineSimilarity_ok_val qe d.embedding hlen.symm hqe hnz
    rw [scoreAll, hcos, ih (fun r hr => hd r (List.mem_cons_of_mem _ hr))]
    rfl

/-- C9: under finite scores (same-dimension, non-degenerate embeddings, as
produced by a real deployment), `findSimilar` returns the candidates sorted
in descending cosine-similarity order against the query embedding, with
ties preserving original input order — its ranking coincides with the
specification's stable ranking (`stableRankSpec`, descending score then
input position) — truncated to the first `topK`. -/
theorem findSimilar_stable_ranking
    (embed : String → Except String (List ℝ)) (query : String)
    (documents : List SimDoc) (topK : ℕ) (qe : List ℝ)
    (hq : embedText embed query = .ok qe)
    (hqe : dotProduct qe qe ≠ 0)
    (hdocs : ∀ d ∈ documents, d.embedding.length = qe.length ∧
      dotProduct d.embedding d.embedding ≠ 0) :
    ∃ ranked : List SimResult,
      EmbeddingService.findSimilar embed query documents topK =
        .ok (ranked.take topK) ∧
      ranked = stableRankSpec
        (documents.map (fun d => (d.text, realCos qe d.embedding))) ∧
      ranked.Pairwise (fun a b => ∃ x y : ℝ, a.score = JSNum.val x ∧
        b.score = JSNum.val y ∧ y ≤ x) := by
  have hscore := scoreAll_ok qe hqe documents hdocs
  have hproj : stableRankSpec
      (documents.map (fun d => (d.text, realCos qe d.embedding))) =
      jsSortDesc (documents.map (fun d =>
        (⟨d.text, JSNum.val (realCos qe d.embedding)⟩ : SimResult))) := by
    unfold stableRankSpec
    have he : (documents.map (fun d => (d.text, realCos qe d.embedding))).enum =
        List.enumFrom 0 (documents.map (fun d => (d.text, realCos qe d.embedding))) :=
      rfl
    rw [he, sortLex_proj, List.map_map]
    rfl
  refine ⟨jsSortDesc (documents.map (fun d =>
    (⟨d.text, JSNum.val (realCos qe d.embedding)⟩ : SimResult))), ?_, hproj.symm, ?_⟩
  · unfold EmbeddingService.findSimilar
    rw [hq]
    simp only [hscore]
  · rw [← hproj]
    unfold stableRankSpec
    refine List.Pairwise.map projSim ?_ (sortLex_pairwise _)
    intro p q hpq
    refine ⟨p.2.2, q.2.2, rfl, rfl, ?_⟩
    rcases hpq with h | ⟨h, _⟩
    · exact h.le
    · exact le_of_eq h.symm

/-- C9 witness: the theorem at a concrete query and three concrete
candidates, two of them tied. -/
theorem findSimilar_stable_ranking_witness :
    ∃ ranked : List SimResult,
      EmbeddingService.findSimilar (fun _ => .ok [(1 : ℝ), 0]) "q"
          [⟨"a", [0, 1]⟩, ⟨"b", [1, 0]⟩, ⟨"c", [0, 2]⟩] 2 =
        .ok (ranked.take 2) ∧
      ranked = stableRankSpec
        (([⟨"a", [0, 1]⟩, ⟨"b", [1, 0]⟩, ⟨"c", [0, 2]⟩] : List SimDoc).map
          (fun d => (d.text, realCos [(1 : ℝ), 0] d.embedding))) ∧
      ranked.Pairwise (fun a b => ∃ x y : ℝ, a.score = JSNum.val x ∧
        b.score = JSNum.val y ∧ y ≤ x) := by
  refine findSimilar_stable_ranking (fun _ => .ok [(1 : ℝ), 0]) "q"
    [⟨"a", [0, 1]⟩, ⟨"b", [1, 0]⟩, ⟨"c", [0, 2]⟩] 2 [(1 : ℝ), 0]
    ?_ ?_ ?_
  · rw [embedText, if_neg (by decide)]
  · norm_num [dotProduct]
  · intro d hd
    rcases List.mem_cons.mp hd with rfl | hd
    · exact ⟨rfl, by norm_num [dotProduct]⟩
    rcases List.mem_cons.mp hd with rfl | hd
    · exact ⟨rfl, by norm_num [dotProduct]⟩
    rcases List.mem_cons.mp hd with rfl | hd
    · exact ⟨rfl, by norm_num [dotProduct]⟩
    · exact absurd hd (List.not_mem_nil d)
